import Mathlib

/-!
# Verification of the Project_Pearson retrieval/ingestion core

Shallow embedding of the core components of the repository:
chunkers (`backend/services/text_utils.py`, `backend/services/document_ingestion.py`),
the adaptive fetcher delay state (`backend/app.py`), the crawl orchestrator's
result-consumption loop (`backend/app.py`), the vector-store adapter
(`backend/vectorstores/chroma_store_fixed.py`), the hybrid retriever
(`backend/services/retrieval.py`) and the ingestion orchestrator
(`backend/services/document_ingestion.py`).

Text is modelled as `List Char`, Python slices `text[a:b]` as
`(text.drop a).take (b - a)`, floats as exact rationals `ℚ`, and Python
`while` loops as fuel-indexed recursion with fuel large enough to cover
every terminating run of the source loop.
-/

namespace Pearson

/-! ### Chunker of `backend/services/text_utils.py` (`chunk_text`)

Python source:
```
def chunk_text(text, size=3000, overlap=200):
    if not text: return []
    chunks = []; start = 0; n = len(text)
    while start < n:
        end = min(start + size, n)
        chunks.append(text[start:end])
        if end == n: break
        start += size - overlap
    return chunks
```
The loop advances `start` by `size - overlap` per iteration; whenever
`overlap < size` it terminates within `n` iterations, so fuel `n + 1`
covers every run of the source loop. -/

/-- The `while start < n` loop of `text_utils.chunk_text`, fuel-indexed. -/
def chunkLoop (size overlap n : Nat) (text : List Char) : Nat → Nat → List (List Char)
  | 0, _ => []
  | fuel + 1, start =>
    if start < n then
      if min (start + size) n = n then
        [(text.drop start).take (min (start + size) n - start)]
      else
        (text.drop start).take (min (start + size) n - start) ::
          chunkLoop size overlap n text fuel (start + (size - overlap))
    else []

/-- `text_utils.chunk_text`: character-window chunker with overlap. -/
def chunk_text (text : List Char) (size overlap : Nat) : List (List Char) :=
  if text = [] then []
  else chunkLoop size overlap text.length text (text.length + 1) 0

/-! ### Chunker of `backend/services/document_ingestion.py` (`chunk_text`)

Python source:
```
def chunk_text(text, chunk_size=1000, overlap=100):
    if len(text) <= chunk_size: return [text]
    chunks = []; start = 0
    while start < len(text):
        end = start + chunk_size
        chunks.append(text[start:end])
        start = end - overlap
    return chunks
```
Note the difference: a text no longer than `chunk_size` (including the
empty text) is returned as a single chunk, and there is no `end == n`
break. -/

/-- The `while start < len(text)` loop of the ingestion orchestrator's
`chunk_text`, fuel-indexed. -/
def ingestChunkLoop (chunk_size overlap n : Nat) (text : List Char) :
    Nat → Nat → List (List Char)
  | 0, _ => []
  | fuel + 1, start =>
    if start < n then
      (text.drop start).take chunk_size ::
        ingestChunkLoop chunk_size overlap n text fuel (start + chunk_size - overlap)
    else []

/-- `document_ingestion.chunk_text`: the ingestion orchestrator's chunker. -/
def chunk_text_ingest (text : List Char) (chunk_size overlap : Nat) : List (List Char) :=
  if text.length ≤ chunk_size then [text]
  else ingestChunkLoop chunk_size overlap text.length text (text.length + 1) 0

/-! ### Crawl orchestrator result-consumption loop (`backend/app.py`, `enumerate_and_embed`)

Per-candidate outcomes produced by `process(doc_id)`:
`"ingested"`, `"miss"`, `"trivial"`, `"empty_chunks"`, `"embed_error"`.
The consumption loop over completed futures updates `consecutive_failures`:
```
if status == "ingested":
    total_docs += 1; total_chunks += chunk_count
elif status == "miss":
    consecutive_failures += 1
    if consecutive_failures >= MAX_CONSECUTIVE_FAILS: break
else:
    consecutive_failures = 0
```
Note the `"ingested"` branch leaves `consecutive_failures` unchanged; only
the `else` branch (trivial / empty_chunks / embed_error) resets it. -/

/-- Per-candidate crawl outcome. -/
inductive Outcome
  | ingested
  | miss
  | trivialPage
  | empty_chunks
  | embed_error
deriving DecidableEq, Repr

/-- Update of `consecutive_failures` after consuming one outcome. -/
def consecStep (c : Nat) : Outcome → Nat
  | .ingested => c
  | .miss => c + 1
  | .trivialPage => 0
  | .empty_chunks => 0
  | .embed_error => 0

/-- Counter after consuming a whole outcome sequence. -/
def consecCount (c : Nat) (os : List Outcome) : Nat :=
  os.foldl consecStep c

/-- The sequence of outcomes actually consumed by `enumerate_and_embed`'s
result loop, starting from counter `c` with threshold `K`: a `miss` that
brings the counter to `K` is consumed and then the loop breaks. -/
def consumeLoop (K : Nat) : Nat → List Outcome → List Outcome
  | _, [] => []
  | c, o :: rest =>
    if o = Outcome.miss ∧ K ≤ consecStep c o then [o]
    else o :: consumeLoop K (consecStep c o) rest

/-! ### Adaptive fetcher delay state (`backend/app.py`, `fetch_case_doc`)

`ADAPTIVE_SLEEP` updates, with floats modelled as exact rationals:
- 404 (not found): unchanged, return "" (miss);
- 429 (rate limit, both the status-code path and the `'429' in str(e)`
  exception path): `min(d * RATE_GROWTH + EXTRA_ON_429, MAX_SLEEP)`;
- 2xx success: `max(SLEEP_BETWEEN, d * RATE_DECAY)`;
- other failure: unchanged. -/

/-- Classified result of one HTTP fetch. -/
inductive FetchOutcome
  | success
  | rateLimited
  | notFound
  | otherFailure
deriving DecidableEq, Repr

/-- Adaptive-rate configuration (`SLEEP_BETWEEN`, `MAX_SLEEP`, `RATE_DECAY`,
`RATE_GROWTH`, `EXTRA_ON_429` in `backend/app.py`). -/
structure RateConfig where
  sleep_between : ℚ
  max_sleep : ℚ
  rate_decay : ℚ
  rate_growth : ℚ
  extra_on_429 : ℚ
deriving Repr

/-- One update of `ADAPTIVE_SLEEP` in `fetch_case_doc`. -/
def updateDelay (cfg : RateConfig) (d : ℚ) : FetchOutcome → ℚ
  | .success => max cfg.sleep_between (d * cfg.rate_decay)
  | .rateLimited => min (d * cfg.rate_growth + cfg.extra_on_429) cfg.max_sleep
  | .notFound => d
  | .otherFailure => d

/-- `ADAPTIVE_SLEEP` after a sequence of fetch outcomes. -/
def delayAfter (cfg : RateConfig) (d : ℚ) (os : List FetchOutcome) : ℚ :=
  os.foldl (updateDelay cfg) d

/-- The default configuration of `backend/app.py`: `SLEEP_BETWEEN=0.8`,
`MAX_SLEEP=6`, `RATE_DECAY=0.9`, `RATE_GROWTH=1.5`, `EXTRA_ON_429=0.2`. -/
def defaultRateConfig : RateConfig :=
  { sleep_between := 8/10, max_sleep := 6, rate_decay := 9/10,
    rate_growth := 3/2, extra_on_429 := 2/10 }

/-! ### Vector store adapter (`backend/vectorstores/chroma_store_fixed.py`)

`similarity_search` builds, for each `(doc, meta, dist)` triple zipped from
the query result, the record
`{"text": doc, "metadata": meta, "distance": dist, "score": score}` with
`score = 1.0 / (1.0 + dist) if dist is not None else None`.
`add_texts` generates ids `f"doc_{ts}_{i}"` from the whole-second timestamp
`ts = int(time.time())` when none are supplied. -/

/-- One hit returned by `similarity_search` (text and metadata abstract,
distance in exact rationals, `None` as `Option.none`). -/
structure Hit (α β : Type) where
  text : α
  metadata : β
  distance : Option ℚ
  score : Option ℚ
deriving Repr

/-- `score = 1.0 / (1.0 + dist) if dist is not None else None`. -/
def hitScore : Option ℚ → Option ℚ
  | none => none
  | some d => some (1 / (1 + d))

/-- The output list of `similarity_search`, as a function of the zipped
documents/metadatas/distances lists returned by the collection query. -/
def similaritySearchHits {α β : Type} (docs : List α) (metas : List β)
    (dists : List (Option ℚ)) : List (Hit α β) :=
  (docs.zip (metas.zip dists)).map
    (fun x => { text := x.1, metadata := x.2.1, distance := x.2.2, score := hitScore x.2.2 })

/-- Id generation of `add_texts` when `ids is None`: `doc_<ts>_<i>` for
`i in range(len(texts))`, where `ts` is the whole-second call timestamp. -/
def genIds (ts : Nat) (n : Nat) : List String :=
  (List.range n).map (fun i => "doc_" ++ toString ts ++ "_" ++ toString i)

/-- The id list returned by `add_texts texts metadatas ids` at whole-second
timestamp `ts` (empty input short-circuits to `[]`). -/
def addTextsIds {α : Type} (texts : List α) (ids : Option (List String)) (ts : Nat) :
    List String :=
  if texts.isEmpty then []
  else
    match ids with
    | some given => given
    | none => genIds ts texts.length

/-! ### Hybrid retriever (`backend/services/retrieval.py`, `hybrid_search`)

Returns `{"case_files": case_files_hits, "case_law": case_law_hits}` where
each list is the corresponding store's `similarity_search` output, filtered
(when `filters` is truthy) by `str(meta.get(k)) == str(v)` for every filter
pair. Metadata is modelled as an association list of string pairs;
Python's `str(None)` is the literal string `"None"`. -/

/-- `str(x)` for `x = meta.get(k)`: `None` prints as `"None"`. -/
def pyStrOpt : Option String → String
  | none => "None"
  | some s => s

/-- `meta.get(k)` over an association-list metadata dictionary. -/
def metaGet (m : List (String × String)) (k : String) : Option String :=
  (m.find? (fun p => p.1 == k)).map Prod.snd

/-- The `_match` predicate of `hybrid_search`. -/
def matchFilters (filters : List (String × String)) (m : List (String × String)) : Bool :=
  filters.all (fun kv => pyStrOpt (metaGet m kv.1) == kv.2)

/-- Result of `hybrid_search`: a mapping with exactly the two keys
`"case_files"` and `"case_law"`, modelled as a two-field structure. -/
structure HybridResult (α : Type) where
  case_files : List (Hit α (List (String × String)))
  case_law : List (Hit α (List (String × String)))

/-- `hybrid_search`, as a function of the two adapter result lists (the
values of `case_files_store.similarity_search(query, k_case_files)` and
`case_law_store.similarity_search(query, k_case_law)`). A `None` or empty
`filters` dictionary is falsy in Python, so no filtering happens then. -/
def hybrid_search {α : Type} (case_files_hits case_law_hits : List (Hit α (List (String × String))))
    (filters : Option (List (String × String))) : HybridResult α :=
  match filters with
  | none => { case_files := case_files_hits, case_law := case_law_hits }
  | some [] => { case_files := case_files_hits, case_law := case_law_hits }
  | some fs =>
      { case_files := case_files_hits.filter (fun h => matchFilters fs h.metadata),
        case_law := case_law_hits.filter (fun h => matchFilters fs h.metadata) }

/-! ### Ingestion orchestrator (`backend/services/document_ingestion.py`, `ingest_upload`)

Raw bytes are `List Nat`. External collaborators are parameters:
- `pdfReader` models `PdfReader(io.BytesIO(content))` + per-page
  `page.extract_text() or ""`: it returns the list of page texts, or an
  error when the library raises (pypdf raises `PdfReadError` on empty or
  malformed input). `_extract_text_from_pdf` has no `try`/`except`, so a
  reader error propagates out of the extractor and out of `ingest_upload`
  (modelled as `Except.error`).
- `docxReader` models `docx.Document(bio)` + paragraph join, likewise
  fallible.
- `decodeUtf8` models `raw.decode("utf-8", errors="ignore")` (total),
  `hashBytes` models `hashlib.sha256(data).hexdigest()[:16]`.

Mutable externals are threaded as an explicit `IngestState`:
the raw-storage directory (`os.path.exists` / `open(..., "wb")`),
the vector collection (entry count), and the `documents` table, whose
`hash` column carries a UNIQUE constraint (`db/models.py`), so a second
insert of the same hash fails at flush and the transaction is rolled
back, returning `{"status": "error"}`. -/

/-- Error raised by an extraction library on malformed input. -/
structure ReadError where
  msg : String
deriving DecidableEq, Repr

/-- The uploaded file: `file.filename`, `file.content_type`, raw bytes. -/
structure UploadFile where
  filename : String
  content_type : String
  content : List Nat
deriving DecidableEq, Repr

/-- External mutable state touched by `ingest_upload`. `rawPaths` is the
set of files existing under `RAW_DIR`, `rawWriteLog` the chronological log
of raw-file writes actually performed, `docHashes` the `hash` column of the
`documents` table, `vectorAdds` the number of vector entries added. -/
structure IngestState where
  rawPaths : List String
  rawWriteLog : List String
  docHashes : List String
  vectorAdds : Nat
deriving DecidableEq, Repr

/-- Return value of `ingest_upload`: `{"status": "ok", ..., "hash": h,
"chunks": n}`, `{"status": "ignored", ...}` or `{"status": "error", ...}`
(the error dict carries no hash/chunk fields). -/
inductive IngestResult
  | ok (hash : String) (chunks : Nat)
  | ignored
  | error
deriving DecidableEq, Repr

/-- `MAX_DOC_LENGTH = 50_000`. -/
def MAX_DOC_LENGTH : Nat := 50000

/-- `RAW_DIR` default `storage/raw`. -/
def RAW_DIR : String := "storage/raw"

/-- `raw_path = os.path.join(RAW_DIR, f"{file_hash}_{filename}")`. -/
def rawPathFor (file_hash filename : String) : String :=
  RAW_DIR ++ "/" ++ file_hash ++ "_" ++ filename

/-- `filename.lower().endswith(suffix)` over the filename's characters
(ASCII per-character lowering, as Python's `str.lower` does on ASCII
filenames). -/
def lowerEndsWith (s : String) (suffix : String) : Bool :=
  List.isSuffixOf suffix.toList (s.toList.map Char.toLower)

/-- `_extract_text_from_pdf`: page texts joined by blank lines; no
`try`/`except`, so a reader error propagates. -/
def extract_text_from_pdf (pdfReader : List Nat → Except ReadError (List String))
    (content : List Nat) : Except ReadError String :=
  (pdfReader content).map (fun pages => String.intercalate "\n\n" pages)

/-- The shared tail of `ingest_upload` after text extraction: truncate to
`MAX_DOC_LENGTH`, write the raw bytes if (and only if) `raw_path` does not
exist yet, chunk with `chunk_size=3000, overlap=250`, add the chunks to the
vector store, then insert one `Document` row — the UNIQUE constraint on
`documents.hash` makes the insert fail and roll back when a row with the
same hash exists (raw write and vector additions are not undone). -/
def finishUpload (file_hash filename : String) (text : String) (st : IngestState) :
    IngestResult × IngestState :=
  let t := text.toList.take MAX_DOC_LENGTH
  let raw_path := rawPathFor file_hash filename
  let st1 :=
    if raw_path ∈ st.rawPaths then st
    else { st with rawPaths := raw_path :: st.rawPaths,
                   rawWriteLog := st.rawWriteLog ++ [raw_path] }
  let chunks := chunk_text_ingest t 3000 250
  let st2 := { st1 with vectorAdds := st1.vectorAdds + chunks.length }
  if file_hash ∈ st2.docHashes then (IngestResult.error, st2)
  else (IngestResult.ok file_hash chunks.length,
        { st2 with docHashes := st2.docHashes ++ [file_hash] })

/-- `ingest_upload`: content hash, dispatch on content type / extension,
extract, then `finishUpload`. Unsupported types return `ignored` without
touching any state; a PDF/DOCX reader error propagates uncaught. -/
def ingest_upload (pdfReader : List Nat → Except ReadError (List String))
    (docxReader : List Nat → Except ReadError String) (docxAvailable : Bool)
    (decodeUtf8 : List Nat → String) (hashBytes : List Nat → String)
    (file : UploadFile) (st : IngestState) :
    Except ReadError (IngestResult × IngestState) := do
  let raw := file.content
  let file_hash := hashBytes raw
  if file.content_type = "application/pdf"
      ∨ (lowerEndsWith file.filename ".pdf") = true then do
    let text ← extract_text_from_pdf pdfReader raw
    pure (finishUpload file_hash file.filename text st)
  else if (file.content_type =
        "application/vnd.openxmlformats-officedocument.wordprocessingml.document"
      ∨ (lowerEndsWith file.filename ".docx") = true) ∧ docxAvailable = true then do
    let text ← docxReader raw
    pure (finishUpload file_hash file.filename text st)
  else if file.content_type = "text/plain" then
    pure (finishUpload file_hash file.filename (decodeUtf8 raw) st)
  else
    pure (IngestResult.ignored, st)

/-! ## Theorems -/

/-- C4 counterexample: the ingestion orchestrator's chunker applied to the
empty string (with its valid default parameters `chunk_size=1000`,
`overlap=100`) returns the one-element sequence `[""]`, not the empty
sequence: `len("") <= chunk_size` makes it return `[text]` unconditionally. -/
theorem chunk_empty_ingest_cex :
    chunk_text_ingest [] 1000 100 = [[]] ∧ ([[]] : List (List Char)) ≠ [] := by
  exact ⟨rfl, by decide⟩

/-- C4 (amended): under valid parameters (`size > overlap ≥ 0`) the
standalone text-utils chunker maps the empty string to the empty sequence,
while the ingestion orchestrator's chunker maps it to the one-element
sequence containing the empty string. -/
theorem chunk_empty_amended (size overlap : Nat) (_hvalid : overlap < size) :
    chunk_text [] size overlap = [] ∧ chunk_text_ingest [] size overlap = [[]] := by
  refine ⟨rfl, ?_⟩
  simp [chunk_text_ingest]

/-- Witness for `chunk_empty_amended` at the ingestion defaults. -/
theorem chunk_empty_amended_witness :
    100 < 1000 ∧ (chunk_text [] 1000 100 = [] ∧ chunk_text_ingest [] 1000 100 = [[]]) :=
  ⟨by decide, chunk_empty_amended 1000 100 (by decide)⟩

/-- C6: with growth factor 1.5, additive penalty 0.2, ceiling 6.0 and
starting delay 0.8 (the defaults of `backend/app.py`), three consecutive
rate-limit outcomes drive the adaptive delay through exactly
0.8 → 1.4 → 2.3 → 3.65, in exact rational arithmetic. -/
theorem rate_limit_sequence :
    delayAfter defaultRateConfig (8/10) [FetchOutcome.rateLimited] = 14/10 ∧
    delayAfter defaultRateConfig (8/10)
      [FetchOutcome.rateLimited, FetchOutcome.rateLimited] = 23/10 ∧
    delayAfter defaultRateConfig (8/10)
      [FetchOutcome.rateLimited, FetchOutcome.rateLimited, FetchOutcome.rateLimited]
      = 73/20 := by
  refine ⟨?_, ?_, ?_⟩ <;>
    · simp only [delayAfter, List.foldl, updateDelay, defaultRateConfig]
      rw [min_eq_left (by norm_num)]
      try rw [min_eq_left (by norm_num)]
      try rw [min_eq_left (by norm_num)]
      norm_num

/-- Each element of the text-utils chunk loop's output is the slice of
length (at most) `size` starting `i` steps of `size - overlap` after the
loop's entry position. -/
theorem chunkLoop_get_eq (size overlap : Nat) (text : List Char) (hso : overlap < size) :
    ∀ fuel start, text.length - start ≤ fuel →
      ∀ i (h : i < (chunkLoop size overlap text.length text fuel start).length),
        (chunkLoop size overlap text.length text fuel start).get ⟨i, h⟩ =
          (text.drop (start + i * (size - overlap))).take size := by
  intro fuel
  induction fuel with
  | zero =>
    intro start hf i h
    simp [chunkLoop] at h
  | succ fuel ih =>
    intro start hf i h
    by_cases hs : start < text.length
    · by_cases he : min (start + size) text.length = text.length
      · have hlist : chunkLoop size overlap text.length text (fuel + 1) start =
            [(text.drop start).take (min (start + size) text.length - start)] := by
          simp [chunkLoop, hs, he]
        have hi : i = 0 := by
          have hlen := h
          rw [hlist] at hlen
          simp at hlen
          omega
        subst hi
        have hgoal : (chunkLoop size overlap text.length text (fuel + 1) start).get ⟨0, h⟩ =
            (text.drop start).take (min (start + size) text.length - start) := by
          simp [hlist]
        rw [hgoal]
        have hle : text.length ≤ start + size := by omega
        simp only [Nat.zero_mul, Nat.add_zero]
        rw [List.take_eq_take]
        simp [List.length_drop]
        omega
      · have hlt : start + size < text.length := by omega
        have hlist : chunkLoop size overlap text.length text (fuel + 1) start =
            (text.drop start).take size ::
              chunkLoop size overlap text.length text fuel (start + (size - overlap)) := by
          have h0 : chunkLoop size overlap text.length text (fuel + 1) start =
              (text.drop start).take (min (start + size) text.length - start) ::
                chunkLoop size overlap text.length text fuel (start + (size - overlap)) := by
            simp [chunkLoop, hs, he]
          have hsz : min (start + size) text.length - start = size := by omega
          rw [hsz] at h0
          exact h0
        match i with
        | 0 =>
          have hgoal : (chunkLoop size overlap text.length text (fuel + 1) start).get ⟨0, h⟩ =
              (text.drop start).take size := by
            simp [hlist]
          rw [hgoal]
          simp
        | j + 1 =>
          have hlen := h
          rw [hlist] at hlen
          simp at hlen
          have hj : j < (chunkLoop size overlap text.length text fuel
              (start + (size - overlap))).length := by omega
          have hgoal : (chunkLoop size overlap text.length text (fuel + 1) start).get
              ⟨j + 1, h⟩ = (chunkLoop size overlap text.length text fuel
                (start + (size - overlap))).get ⟨j, hj⟩ := by
            rw [List.get_of_eq hlist]
            simp
          rw [hgoal, ih (start + (size - overlap)) (by omega) j hj]
          have harith : start + (size - overlap) + j * (size - overlap) =
              start + (j + 1) * (size - overlap) := by
            rw [Nat.succ_mul]
            omega
          rw [harith]
    · simp [chunkLoop, hs] at h

/-- Every chunk of the text-utils chunker except possibly the final one has
length exactly `size`. -/
theorem chunkLoop_get_len (size overlap : Nat) (text : List Char) :
    ∀ fuel start i (h : i < (chunkLoop size overlap text.length text fuel start).length),
      i + 1 < (chunkLoop size overlap text.length text fuel start).length →
      ((chunkLoop size overlap text.length text fuel start).get ⟨i, h⟩).length = size := by
  intro fuel
  induction fuel with
  | zero =>
    intro start i h
    simp [chunkLoop] at h
  | succ fuel ih =>
    intro start i h hnext
    by_cases hs : start < text.length
    · by_cases he : min (start + size) text.length = text.length
      · have hlist : chunkLoop size overlap text.length text (fuel + 1) start =
            [(text.drop start).take (min (start + size) text.length - start)] := by
          simp [chunkLoop, hs, he]
        rw [hlist] at hnext
        simp at hnext
      · have hlt : start + size < text.length := by omega
        have hlist : chunkLoop size overlap text.length text (fuel + 1) start =
            (text.drop start).take size ::
              chunkLoop size overlap text.length text fuel (start + (size - overlap)) := by
          have h0 : chunkLoop size overlap text.length text (fuel + 1) start =
              (text.drop start).take (min (start + size) text.length - start) ::
                chunkLoop size overlap text.length text fuel (start + (size - overlap)) := by
            simp [chunkLoop, hs, he]
          have hsz : min (start + size) text.length - start = size := by omega
          rw [hsz] at h0
          exact h0
        match i with
        | 0 =>
          have hgoal : (chunkLoop size overlap text.length text (fuel + 1) start).get ⟨0, h⟩ =
              (text.drop start).take size := by
            simp [hlist]
          rw [hgoal]
          simp [List.length_take, List.length_drop]
          omega
        | j + 1 =>
          have hlen := h
          rw [hlist] at hlen
          simp at hlen
          have hj : j < (chunkLoop size overlap text.length text fuel
              (start + (size - overlap))).length := by omega
          have hgoal : (chunkLoop size overlap text.length text (fuel + 1) start).get
              ⟨j + 1, h⟩ = (chunkLoop size overlap text.length text fuel
                (start + (size - overlap))).get ⟨j, hj⟩ := by
            rw [List.get_of_eq hlist]
            simp
          rw [hgoal]
          refine ih (start + (size - overlap)) j hj ?_
          rw [hlist] at hnext
          simp at hnext
          omega
    · simp [chunkLoop, hs] at h

/-- C7: the text-utils chunker on `"abcdefghij"` with `size=4`, `overlap=1`
returns exactly `["abcd", "defg", "ghij"]`; in general (for
`size > overlap`) its `i`-th chunk is the slice `text[i*(size-overlap) :
i*(size-overlap)+size]` — so slices advance by exactly `size - overlap`,
none skipped or duplicated — and every chunk except possibly the final one
has length exactly `size`. -/
theorem chunker_slices (text : List Char) (size overlap : Nat) (hso : overlap < size) :
    chunk_text "abcdefghij".toList 4 1 = ["abcd".toList, "defg".toList, "ghij".toList] ∧
    (∀ i (h : i < (chunk_text text size overlap).length),
      (chunk_text text size overlap).get ⟨i, h⟩ =
        (text.drop (i * (size - overlap))).take size) ∧
    (∀ i (h : i < (chunk_text text size overlap).length),
      i + 1 < (chunk_text text size overlap).length →
      ((chunk_text text size overlap).get ⟨i, h⟩).length = size) := by
  refine ⟨by decide, ?_, ?_⟩
  · intro i h
    by_cases ht : text = []
    · rw [ht] at h
      simp [chunk_text] at h
    · have hrw : chunk_text text size overlap =
          chunkLoop size overlap text.length text (text.length + 1) 0 := by
        simp [chunk_text, ht]
      have h0 : i < (chunkLoop size overlap text.length text (text.length + 1) 0).length := by
        rw [hrw] at h
        exact h
      have := chunkLoop_get_eq size overlap text hso (text.length + 1) 0 (by omega) i h0
      rw [List.get_of_eq hrw]
      simpa using this
  · intro i h hnext
    by_cases ht : text = []
    · rw [ht] at h
      simp [chunk_text] at h
    · have hrw : chunk_text text size overlap =
          chunkLoop size overlap text.length text (text.length + 1) 0 := by
        simp [chunk_text, ht]
      have h0 : i < (chunkLoop size overlap text.length text (text.length + 1) 0).length := by
        rw [hrw] at h
        exact h
      have hnext0 : i + 1 <
          (chunkLoop size overlap text.length text (text.length + 1) 0).length := by
        rw [hrw] at hnext
        exact hnext
      have := chunkLoop_get_len size overlap text (text.length + 1) 0 i h0 hnext0
      rw [List.get_of_eq hrw]
      exact this

/-- Witness for `chunker_slices` at the spec's concrete scenario. -/
theorem chunker_slices_witness :
    1 < 4 ∧
    (chunk_text "abcdefghij".toList 4 1 = ["abcd".toList, "defg".toList, "ghij".toList] ∧
    (∀ i (h : i < (chunk_text "abcdefghij".toList 4 1).length),
      (chunk_text "abcdefghij".toList 4 1).get ⟨i, h⟩ =
        (("abcdefghij".toList).drop (i * (4 - 1))).take 4) ∧
    (∀ i (h : i < (chunk_text "abcdefghij".toList 4 1).length),
      i + 1 < (chunk_text "abcdefghij".toList 4 1).length →
      ((chunk_text "abcdefghij".toList 4 1).get ⟨i, h⟩).length = 4)) :=
  ⟨by decide, chunker_slices "abcdefghij".toList 4 1 (by decide)⟩

/-- C10: when no ids are supplied, `add_texts` derives each vector id
solely from the whole-second call timestamp and the position index — the
`i`-th id is `doc_<ts>_<i>` — so two same-second calls over input lists of
equal length generate identical id lists (ids are not unique across
calls). -/
theorem add_texts_id_collision {α β : Type} (texts1 : List α) (texts2 : List β)
    (ts : Nat) (hlen : texts1.length = texts2.length) :
    addTextsIds texts1 none ts = addTextsIds texts2 none ts ∧
    (∀ i, i < texts1.length →
      (addTextsIds texts1 none ts)[i]? =
        some ("doc_" ++ toString ts ++ "_" ++ toString i)) := by
  constructor
  · cases texts1 with
    | nil =>
      cases texts2 with
      | nil => rfl
      | cons b l2 => simp at hlen
    | cons a l1 =>
      cases texts2 with
      | nil => simp at hlen
      | cons b l2 =>
        simp only [addTextsIds, List.isEmpty_cons, genIds]
        rw [hlen]
  · intro i hi
    cases texts1 with
    | nil => simp at hi
    | cons a l1 =>
      simp only [addTextsIds, List.isEmpty_cons, genIds, Bool.false_eq_true,
        if_false, List.getElem?_map]
      rw [List.getElem?_range (by simpa using hi)]
      rfl

/-- Witness for `add_texts_id_collision`: two distinct same-second batches
of length 2 receive the same id list. -/
theorem add_texts_id_collision_witness :
    ([0, 1] : List Nat).length = ([5, 6] : List Nat).length ∧
    (addTextsIds ([0, 1] : List Nat) none 7 = addTextsIds ([5, 6] : List Nat) none 7 ∧
    (∀ i, i < ([0, 1] : List Nat).length →
      (addTextsIds ([0, 1] : List Nat) none 7)[i]? =
        some ("doc_" ++ toString 7 ++ "_" ++ toString i))) :=
  ⟨rfl, add_texts_id_collision [0, 1] [5, 6] 7 rfl⟩

/-- One adaptive-delay update keeps the delay inside
`[sleep_between, max_sleep]`. -/
theorem updateDelay_mem (cfg : RateConfig) (d : ℚ)
    (hf0 : 0 ≤ cfg.sleep_between) (hfc : cfg.sleep_between ≤ cfg.max_sleep)
    (hdec1 : cfg.rate_decay ≤ 1) (hgr : 1 ≤ cfg.rate_growth)
    (hex : 0 ≤ cfg.extra_on_429)
    (hd1 : cfg.sleep_between ≤ d) (hd2 : d ≤ cfg.max_sleep) (o : FetchOutcome) :
    cfg.sleep_between ≤ updateDelay cfg d o ∧ updateDelay cfg d o ≤ cfg.max_sleep := by
  have hd0 : 0 ≤ d := le_trans hf0 hd1
  cases o with
  | success =>
    refine ⟨le_max_left _ _, max_le hfc ?_⟩
    calc d * cfg.rate_decay ≤ d * 1 := by
          exact mul_le_mul_of_nonneg_left hdec1 hd0
      _ = d := mul_one d
      _ ≤ cfg.max_sleep := hd2
  | rateLimited =>
    refine ⟨le_min ?_ hfc, min_le_right _ _⟩
    calc cfg.sleep_between ≤ d := hd1
      _ = d * 1 := (mul_one d).symm
      _ ≤ d * cfg.rate_growth := mul_le_mul_of_nonneg_left hgr hd0
      _ ≤ d * cfg.rate_growth + cfg.extra_on_429 := le_add_of_nonneg_right hex
  | notFound => exact ⟨hd1, hd2⟩
  | otherFailure => exact ⟨hd1, hd2⟩

/-- The delay stays inside `[sleep_between, max_sleep]` across any finite
outcome sequence. -/
theorem delayAfter_mem (cfg : RateConfig)
    (hf0 : 0 ≤ cfg.sleep_between) (hfc : cfg.sleep_between ≤ cfg.max_sleep)
    (hdec1 : cfg.rate_decay ≤ 1) (hgr : 1 ≤ cfg.rate_growth)
    (hex : 0 ≤ cfg.extra_on_429) :
    ∀ (os : List FetchOutcome) (d : ℚ),
      cfg.sleep_between ≤ d → d ≤ cfg.max_sleep →
      cfg.sleep_between ≤ delayAfter cfg d os ∧ delayAfter cfg d os ≤ cfg.max_sleep := by
  intro os
  induction os with
  | nil => intro d hd1 hd2; exact ⟨hd1, hd2⟩
  | cons o rest ih =>
    intro d hd1 hd2
    have hstep := updateDelay_mem cfg d hf0 hfc hdec1 hgr hex hd1 hd2 o
    exact ih (updateDelay cfg d o) hstep.1 hstep.2

/-- C5: with a sane configuration (`0 ≤ floor ≤ ceiling`, decay ≤ 1,
growth ≥ 1, additive penalty ≥ 0) and a current delay inside
`[floor, ceiling]`, the delay after any finite sequence of fetch outcomes
stays inside `[floor, ceiling]`; a success never increases the delay, a
rate-limit outcome never decreases it, and a not-found outcome leaves it
unchanged. -/
theorem adaptive_delay_bounds (cfg : RateConfig) (os : List FetchOutcome) (d : ℚ)
    (hf0 : 0 ≤ cfg.sleep_between) (hfc : cfg.sleep_between ≤ cfg.max_sleep)
    (hdec1 : cfg.rate_decay ≤ 1) (hgr : 1 ≤ cfg.rate_growth)
    (hex : 0 ≤ cfg.extra_on_429)
    (hd1 : cfg.sleep_between ≤ d) (hd2 : d ≤ cfg.max_sleep) :
    (cfg.sleep_between ≤ delayAfter cfg d os ∧ delayAfter cfg d os ≤ cfg.max_sleep) ∧
    updateDelay cfg d FetchOutcome.success ≤ d ∧
    d ≤ updateDelay cfg d FetchOutcome.rateLimited ∧
    updateDelay cfg d FetchOutcome.notFound = d := by
  have hd0 : 0 ≤ d := le_trans hf0 hd1
  refine ⟨delayAfter_mem cfg hf0 hfc hdec1 hgr hex os d hd1 hd2, ?_, ?_, rfl⟩
  · refine max_le hd1 ?_
    calc d * cfg.rate_decay ≤ d * 1 := mul_le_mul_of_nonneg_left hdec1 hd0
      _ = d := mul_one d
  · refine le_min ?_ hd2
    calc d = d * 1 := (mul_one d).symm
      _ ≤ d * cfg.rate_growth := mul_le_mul_of_nonneg_left hgr hd0
      _ ≤ d * cfg.rate_growth + cfg.extra_on_429 := le_add_of_nonneg_right hex

/-- Witness for `adaptive_delay_bounds` at the default configuration of
`backend/app.py` and a small outcome sequence. -/
theorem adaptive_delay_bounds_witness :
    (0 ≤ defaultRateConfig.sleep_between ∧
     defaultRateConfig.sleep_between ≤ defaultRateConfig.max_sleep ∧
     defaultRateConfig.rate_decay ≤ 1 ∧ 1 ≤ defaultRateConfig.rate_growth ∧
     0 ≤ defaultRateConfig.extra_on_429 ∧
     defaultRateConfig.sleep_between ≤ 8/10 ∧ (8:ℚ)/10 ≤ defaultRateConfig.max_sleep) ∧
    ((defaultRateConfig.sleep_between ≤
        delayAfter defaultRateConfig (8/10)
          [FetchOutcome.rateLimited, FetchOutcome.success, FetchOutcome.notFound] ∧
      delayAfter defaultRateConfig (8/10)
          [FetchOutcome.rateLimited, FetchOutcome.success, FetchOutcome.notFound] ≤
        defaultRateConfig.max_sleep) ∧
     updateDelay defaultRateConfig (8/10) FetchOutcome.success ≤ 8/10 ∧
     (8:ℚ)/10 ≤ updateDelay defaultRateConfig (8/10) FetchOutcome.rateLimited ∧
     updateDelay defaultRateConfig (8/10) FetchOutcome.notFound = 8/10) :=
  ⟨⟨by norm_num [defaultRateConfig], by norm_num [defaultRateConfig],
    by norm_num [defaultRateConfig], by norm_num [defaultRateConfig],
    by norm_num [defaultRateConfig], by norm_num [defaultRateConfig],
    by norm_num [defaultRateConfig]⟩,
   adaptive_delay_bounds defaultRateConfig
     [FetchOutcome.rateLimited, FetchOutcome.success, FetchOutcome.notFound] (8/10)
     (by norm_num [defaultRateConfig]) (by norm_num [defaultRateConfig])
     (by norm_num [defaultRateConfig]) (by norm_num [defaultRateConfig])
     (by norm_num [defaultRateConfig]) (by norm_num [defaultRateConfig])
     (by norm_num [defaultRateConfig])⟩

/-- A hit built by `similarity_search` carries the score derived from its
own distance field. -/
theorem mem_similaritySearchHits_score {α β : Type} {docs : List α} {metas : List β}
    {dists : List (Option ℚ)} {hit : Hit α β}
    (h : hit ∈ similaritySearchHits docs metas dists) :
    hit.score = hitScore hit.distance := by
  unfold similaritySearchHits at h
  rcases List.mem_map.mp h with ⟨x, _, rfl⟩
  rfl

/-- C8: every hit of `similarity_search` with an available distance `d` has
score `1/(1+d)`, which for `d ≥ 0` lies in `(0, 1]`; a hit with no distance
has a null score; and for two hits of the same result with distances
`d1 < d2` (with `0 ≤ d1`) the first's score strictly exceeds the
second's. -/
theorem similarity_score_spec {α β : Type} (docs : List α) (metas : List β)
    (dists : List (Option ℚ)) :
    (∀ hit ∈ similaritySearchHits docs metas dists,
      (hit.distance = none → hit.score = none) ∧
      ∀ d : ℚ, hit.distance = some d →
        hit.score = some (1 / (1 + d)) ∧
        (0 ≤ d → 0 < 1 / (1 + d) ∧ 1 / (1 + d) ≤ 1)) ∧
    (∀ h1 ∈ similaritySearchHits docs metas dists,
      ∀ h2 ∈ similaritySearchHits docs metas dists,
      ∀ d1 d2 : ℚ, h1.distance = some d1 → h2.distance = some d2 →
        0 ≤ d1 → d1 < d2 →
        ∃ s1 s2 : ℚ, h1.score = some s1 ∧ h2.score = some s2 ∧ s2 < s1) := by
  constructor
  · intro hit hmem
    have hsc := mem_similaritySearchHits_score hmem
    constructor
    · intro hnone
      rw [hsc, hnone]
      rfl
    · intro d hd
      rw [hsc, hd]
      refine ⟨rfl, ?_⟩
      intro hd0
      have hpos : (0:ℚ) < 1 + d := by linarith
      constructor
      · exact one_div_pos.mpr hpos
      · rw [div_le_one hpos]
        linarith
  · intro h1 hm1 h2 hm2 d1 d2 hd1 hd2 hd10 hlt
    have hs1 := mem_similaritySearchHits_score hm1
    have hs2 := mem_similaritySearchHits_score hm2
    refine ⟨1 / (1 + d1), 1 / (1 + d2), ?_, ?_, ?_⟩
    · rw [hs1, hd1]; rfl
    · rw [hs2, hd2]; rfl
    · exact one_div_lt_one_div_of_lt (by linarith) (by linarith)

/-- Witness for `similarity_score_spec` on a concrete two-hit result. -/
theorem similarity_score_spec_witness :
    (∀ hit ∈ similaritySearchHits ([0, 1] : List Nat) ([2, 3] : List Nat)
        [some 1, some 2],
      (hit.distance = none → hit.score = none) ∧
      ∀ d : ℚ, hit.distance = some d →
        hit.score = some (1 / (1 + d)) ∧
        (0 ≤ d → 0 < 1 / (1 + d) ∧ 1 / (1 + d) ≤ 1)) ∧
    (∀ h1 ∈ similaritySearchHits ([0, 1] : List Nat) ([2, 3] : List Nat)
        [some 1, some 2],
      ∀ h2 ∈ similaritySearchHits ([0, 1] : List Nat) ([2, 3] : List Nat)
        [some 1, some 2],
      ∀ d1 d2 : ℚ, h1.distance = some d1 → h2.distance = some d2 →
        0 ≤ d1 → d1 < d2 →
        ∃ s1 s2 : ℚ, h1.score = some s1 ∧ h2.score = some s2 ∧ s2 < s1) :=
  similarity_score_spec [0, 1] [2, 3] [some 1, some 2]

/-- C9: `hybrid_search` returns a mapping with exactly the two collection
groups (the two fields of `HybridResult`); each group's list is a sublist
of its own adapter result — only hits from that collection, in the
adapter's own order, surviving the optional exact-match metadata filter —
and has length at most the per-collection `k` whenever the adapter
returned at most `k` hits; with no filters both groups are returned
verbatim. -/
theorem hybrid_search_grouping {α : Type}
    (cf cl : List (Hit α (List (String × String))))
    (filters : Option (List (String × String))) (kf kl : Nat)
    (hcf : cf.length ≤ kf) (hcl : cl.length ≤ kl) :
    List.Sublist (hybrid_search cf cl filters).case_files cf ∧
    List.Sublist (hybrid_search cf cl filters).case_law cl ∧
    (hybrid_search cf cl filters).case_files.length ≤ kf ∧
    (hybrid_search cf cl filters).case_law.length ≤ kl ∧
    (filters = none → hybrid_search cf cl filters = ⟨cf, cl⟩) := by
  match filters with
  | none =>
    exact ⟨List.Sublist.refl cf, List.Sublist.refl cl, hcf, hcl, fun _ => rfl⟩
  | some [] =>
    exact ⟨List.Sublist.refl cf, List.Sublist.refl cl, hcf, hcl, by simp⟩
  | some (kv :: fs) =>
    refine ⟨List.filter_sublist cf, List.filter_sublist cl, ?_, ?_, by simp⟩
    · exact le_trans (List.length_filter_le _ cf) hcf
    · exact le_trans (List.length_filter_le _ cl) hcl

/-- Witness for `hybrid_search_grouping`: two adapter groups of one hit
each, a metadata filter matching only the first group. -/
theorem hybrid_search_grouping_witness :
    (([({ text := 0, metadata := [("k", "v")], distance := some 1,
          score := some (1/2) } : Hit Nat (List (String × String)))]).length ≤ 3 ∧
     ([({ text := 1, metadata := [], distance := some 2,
          score := some (1/3) } : Hit Nat (List (String × String)))]).length ≤ 3) ∧
    (List.Sublist (hybrid_search
        [({ text := 0, metadata := [("k", "v")], distance := some 1,
            score := some (1/2) } : Hit Nat (List (String × String)))]
        [{ text := 1, metadata := [], distance := some 2, score := some (1/3) }]
        (some [("k", "v")])).case_files
      [({ text := 0, metadata := [("k", "v")], distance := some 1,
          score := some (1/2) } : Hit Nat (List (String × String)))] ∧
     List.Sublist (hybrid_search
        [({ text := 0, metadata := [("k", "v")], distance := some 1,
            score := some (1/2) } : Hit Nat (List (String × String)))]
        [{ text := 1, metadata := [], distance := some 2, score := some (1/3) }]
        (some [("k", "v")])).case_law
      [({ text := 1, metadata := [], distance := some 2,
          score := some (1/3) } : Hit Nat (List (String × String)))] ∧
     (hybrid_search
        [({ text := 0, metadata := [("k", "v")], distance := some 1,
            score := some (1/2) } : Hit Nat (List (String × String)))]
        [{ text := 1, metadata := [], distance := some 2, score := some (1/3) }]
        (some [("k", "v")])).case_files.length ≤ 3 ∧
     (hybrid_search
        [({ text := 0, metadata := [("k", "v")], distance := some 1,
            score := some (1/2) } : Hit Nat (List (String × String)))]
        [{ text := 1, metadata := [], distance := some 2, score := some (1/3) }]
        (some [("k", "v")])).case_law.length ≤ 3 ∧
     (some [("k", "v")] = none →
      hybrid_search
        [({ text := 0, metadata := [("k", "v")], distance := some 1,
            score := some (1/2) } : Hit Nat (List (String × String)))]
        [{ text := 1, metadata := [], distance := some 2, score := some (1/3) }]
        (some [("k", "v")]) =
        ⟨[{ text := 0, metadata := [("k", "v")], distance := some 1,
            score := some (1/2) }],
         [{ text := 1, metadata := [], distance := some 2,
            score := some (1/3) }]⟩)) :=
  ⟨⟨by simp, by simp⟩,
   hybrid_search_grouping
     [{ text := 0, metadata := [("k", "v")], distance := some 1, score := some (1/2) }]
     [{ text := 1, metadata := [], distance := some 2, score := some (1/3) }]
     (some [("k", "v")]) 3 3 (by simp) (by simp)⟩

/-- The consumed outcome sequence is a literal prefix of the submitted
one: after the break, no further outcome is consumed. -/
theorem consumeLoop_is_take (K : Nat) :
    ∀ (os : List Outcome) (c : Nat),
      consumeLoop K c os = os.take (consumeLoop K c os).length := by
  intro os
  induction os with
  | nil => intro c; rfl
  | cons o rest ih =>
    intro c
    by_cases hb : o = Outcome.miss ∧ K ≤ consecStep c o
    · obtain ⟨ho, hK⟩ := hb
      subst ho
      simp [consumeLoop, hK]
    · have hcons : consumeLoop K c (o :: rest) =
          o :: consumeLoop K (consecStep c o) rest := by
        simp [consumeLoop, hb]
      rw [hcons]
      simp only [List.length_cons, List.take_succ_cons]
      rw [← ih (consecStep c o)]

/-- While consumption continues, the counter stays below the threshold:
no proper prefix of the consumed sequence reaches `K`. -/
theorem consumeLoop_below (K : Nat) :
    ∀ (os : List Outcome) (c : Nat), c < K →
      ∀ m, m < (consumeLoop K c os).length → consecCount c (os.take m) < K := by
  intro os
  induction os with
  | nil => intro c _ m hm; simp [consumeLoop] at hm
  | cons o rest ih =>
    intro c hc m hm
    by_cases hb : o = Outcome.miss ∧ K ≤ consecStep c o
    · obtain ⟨ho, hK⟩ := hb
      subst ho
      rw [show consumeLoop K c (Outcome.miss :: rest) = [Outcome.miss] from by
        simp [consumeLoop, hK]] at hm
      simp at hm
      have hm0 : m = 0 := by omega
      subst hm0
      simpa [consecCount] using hc
    · have hcons : consumeLoop K c (o :: rest) =
          o :: consumeLoop K (consecStep c o) rest := by
        simp [consumeLoop, hb]
      rw [hcons] at hm
      match m with
      | 0 => simpa [consecCount] using hc
      | m' + 1 =>
        have hc' : consecStep c o < K := by
          by_cases ho : o = Outcome.miss
          · rcases Nat.lt_or_ge (consecStep c o) K with h1 | h1
            · exact h1
            · exact absurd ⟨ho, h1⟩ hb
          · cases o with
            | miss => exact absurd rfl ho
            | ingested => simpa [consecStep] using hc
            | trivialPage => simpa [consecStep] using Nat.lt_of_le_of_lt (Nat.zero_le c) hc
            | empty_chunks => simpa [consecStep] using Nat.lt_of_le_of_lt (Nat.zero_le c) hc
            | embed_error => simpa [consecStep] using Nat.lt_of_le_of_lt (Nat.zero_le c) hc
        have hfold : consecCount c ((o :: rest).take (m' + 1)) =
            consecCount (consecStep c o) (rest.take m') := by
          simp [consecCount]
        rw [hfold]
        refine ih (consecStep c o) hc' m' ?_
        simp at hm
        omega

/-- If consumption stopped before the end of the outcome sequence, the
counter reached exactly `K` over the consumed outcomes. -/
theorem consumeLoop_stop (K : Nat) :
    ∀ (os : List Outcome) (c : Nat), c < K →
      (consumeLoop K c os).length < os.length →
      consecCount c (consumeLoop K c os) = K := by
  intro os
  induction os with
  | nil => intro c _ h; simp [consumeLoop] at h
  | cons o rest ih =>
    intro c hc h
    by_cases hb : o = Outcome.miss ∧ K ≤ consecStep c o
    · obtain ⟨ho, hK⟩ := hb
      subst ho
      rw [show consumeLoop K c (Outcome.miss :: rest) = [Outcome.miss] from by
        simp [consumeLoop, hK]]
      simp [consecCount, consecStep] at hK ⊢
      omega
    · have hcons : consumeLoop K c (o :: rest) =
          o :: consumeLoop K (consecStep c o) rest := by
        simp [consumeLoop, hb]
      rw [hcons] at h ⊢
      have hc' : consecStep c o < K := by
        by_cases ho : o = Outcome.miss
        · rcases Nat.lt_or_ge (consecStep c o) K with h1 | h1
          · exact h1
          · exact absurd ⟨ho, h1⟩ hb
        · cases o with
          | miss => exact absurd rfl ho
          | ingested => simpa [consecStep] using hc
          | trivialPage => simpa [consecStep] using Nat.lt_of_le_of_lt (Nat.zero_le c) hc
          | empty_chunks => simpa [consecStep] using Nat.lt_of_le_of_lt (Nat.zero_le c) hc
          | embed_error => simpa [consecStep] using Nat.lt_of_le_of_lt (Nat.zero_le c) hc
      have hlen : (consumeLoop K (consecStep c o) rest).length < rest.length := by
        simp at h
        omega
      have := ih (consecStep c o) hc' hlen
      simpa [consecCount] using this

/-- If the counter never reaches `K` over any prefix, every outcome is
consumed. -/
theorem consumeLoop_all (K : Nat) :
    ∀ (os : List Outcome) (c : Nat),
      (∀ m, m ≤ os.length → consecCount c (os.take m) < K) →
      consumeLoop K c os = os := by
  intro os
  induction os with
  | nil => intro c _; rfl
  | cons o rest ih =>
    intro c h
    have h1 : consecStep c o < K := by
      have := h 1 (by simp)
      simpa [consecCount] using this
    have hb : ¬(o = Outcome.miss ∧ K ≤ consecStep c o) := by
      rintro ⟨_, hK⟩
      omega
    have hcons : consumeLoop K c (o :: rest) =
        o :: consumeLoop K (consecStep c o) rest := by
      simp [consumeLoop, hb]
    rw [hcons]
    congr 1
    refine ih (consecStep c o) ?_
    intro m hm
    have := h (m + 1) (by simp; omega)
    simpa [consecCount] using this

/-- C1 (amended): in the crawl orchestrator's result loop, `miss`
increments the consecutive-miss counter, `trivial` / `empty_chunks` /
`embed_error` reset it to 0, but `ingested` leaves it unchanged; once the
counter reaches the threshold `K` the orchestrator consumes no further
outcome: the consumed sequence is a prefix of the outcome sequence, the
counter is below `K` at every proper prefix of it (the loop never stops
early), it equals exactly `K` when the loop did stop before the end, and
if no prefix ever brings the counter to `K` every outcome is consumed. -/
theorem crawl_early_stop_amended (K : Nat) (os : List Outcome) (hK : 0 < K) :
    consumeLoop K 0 os = os.take (consumeLoop K 0 os).length ∧
    (∀ m, m < (consumeLoop K 0 os).length → consecCount 0 (os.take m) < K) ∧
    ((consumeLoop K 0 os).length < os.length →
      consecCount 0 (consumeLoop K 0 os) = K) ∧
    ((∀ m, m ≤ os.length → consecCount 0 (os.take m) < K) → consumeLoop K 0 os = os) :=
  ⟨consumeLoop_is_take K os 0, consumeLoop_below K os 0 hK,
   consumeLoop_stop K os 0 hK, consumeLoop_all K os 0⟩

/-- Witness for `crawl_early_stop_amended` with threshold 2 over a
five-outcome sequence whose last outcome is never consumed. -/
theorem crawl_early_stop_amended_witness :
    0 < 2 ∧
    (consumeLoop 2 0 [Outcome.miss, Outcome.trivialPage, Outcome.miss, Outcome.miss,
        Outcome.ingested] =
      ([Outcome.miss, Outcome.trivialPage, Outcome.miss, Outcome.miss,
        Outcome.ingested].take (consumeLoop 2 0 [Outcome.miss, Outcome.trivialPage,
          Outcome.miss, Outcome.miss, Outcome.ingested]).length) ∧
    (∀ m, m < (consumeLoop 2 0 [Outcome.miss, Outcome.trivialPage, Outcome.miss,
        Outcome.miss, Outcome.ingested]).length →
      consecCount 0 ([Outcome.miss, Outcome.trivialPage, Outcome.miss, Outcome.miss,
        Outcome.ingested].take m) < 2) ∧
    ((consumeLoop 2 0 [Outcome.miss, Outcome.trivialPage, Outcome.miss, Outcome.miss,
        Outcome.ingested]).length <
      [Outcome.miss, Outcome.trivialPage, Outcome.miss, Outcome.miss,
        Outcome.ingested].length →
      consecCount 0 (consumeLoop 2 0 [Outcome.miss, Outcome.trivialPage, Outcome.miss,
        Outcome.miss, Outcome.ingested]) = 2) ∧
    ((∀ m, m ≤ [Outcome.miss, Outcome.trivialPage, Outcome.miss, Outcome.miss,
        Outcome.ingested].length →
      consecCount 0 ([Outcome.miss, Outcome.trivialPage, Outcome.miss, Outcome.miss,
        Outcome.ingested].take m) < 2) →
      consumeLoop 2 0 [Outcome.miss, Outcome.trivialPage, Outcome.miss, Outcome.miss,
        Outcome.ingested] =
        [Outcome.miss, Outcome.trivialPage, Outcome.miss, Outcome.miss,
          Outcome.ingested])) :=
  ⟨by decide,
   crawl_early_stop_amended 2
     [Outcome.miss, Outcome.trivialPage, Outcome.miss, Outcome.miss, Outcome.ingested]
     (by decide)⟩

/-- C1 counterexample: an `ingested` outcome does not reset the
consecutive-miss counter. With threshold K = 2 and outcomes
`[miss, ingested, miss, trivial]` — in which no two misses are adjacent, so
under the claimed reset-on-any-non-miss the counter would stay below 2
throughout and all four outcomes would be consumed — the loop stops after
the third outcome; and the counter after an `ingested` outcome is left at
its previous value 1, not reset to 0. -/
theorem crawl_ingested_no_reset_cex :
    consumeLoop 2 0 [Outcome.miss, Outcome.ingested, Outcome.miss, Outcome.trivialPage]
      = [Outcome.miss, Outcome.ingested, Outcome.miss] ∧
    consumeLoop 2 0 [Outcome.miss, Outcome.ingested, Outcome.miss, Outcome.trivialPage]
      ≠ [Outcome.miss, Outcome.ingested, Outcome.miss, Outcome.trivialPage] ∧
    consecStep 1 Outcome.ingested = 1 ∧ consecStep 1 Outcome.ingested ≠ 0 := by
  decide

/-- `finishUpload` on a fresh hash and absent raw file: writes the raw
file once, adds the chunk vectors and inserts one Document row. -/
theorem finishUpload_fresh (file_hash filename : String) (text : String)
    (st : IngestState)
    (hp : rawPathFor file_hash filename ∉ st.rawPaths)
    (hh : file_hash ∉ st.docHashes) :
    finishUpload file_hash filename text st =
      (IngestResult.ok file_hash
        (chunk_text_ingest (text.toList.take MAX_DOC_LENGTH) 3000 250).length,
       { rawPaths := rawPathFor file_hash filename :: st.rawPaths,
         rawWriteLog := st.rawWriteLog ++ [rawPathFor file_hash filename],
         docHashes := st.docHashes ++ [file_hash],
         vectorAdds := st.vectorAdds +
           (chunk_text_ingest (text.toList.take MAX_DOC_LENGTH) 3000 250).length }) := by
  simp [finishUpload, hp, hh]

/-- `finishUpload` when the raw file already exists and a Document row with
the same hash exists: no raw write, vectors are still added (and remain,
the rollback does not undo them), the row insert fails and the call
reports an error. -/
theorem finishUpload_dup (file_hash filename : String) (text : String)
    (st : IngestState)
    (hp : rawPathFor file_hash filename ∈ st.rawPaths)
    (hh : file_hash ∈ st.docHashes) :
    finishUpload file_hash filename text st =
      (IngestResult.error,
       { st with vectorAdds := st.vectorAdds +
           (chunk_text_ingest (text.toList.take MAX_DOC_LENGTH) 3000 250).length }) := by
  simp [finishUpload, hp, hh]

/-- C2 (amended): ingesting the same raw bytes twice (as `text/plain`)
creates exactly one Document row keyed by the content hash and writes the
raw-bytes file exactly once — the second ingestion skips the write and
reuses the stored copy — but the second ingestion's Document insert
violates the unique-hash constraint, so it returns an `error` status
rather than completing successfully. -/
theorem ingest_dedup_amended
    (pdfReader : List Nat → Except ReadError (List String))
    (docxReader : List Nat → Except ReadError String) (docxAvailable : Bool)
    (decodeUtf8 : List Nat → String) (hashBytes : List Nat → String)
    (file : UploadFile) (st0 : IngestState)
    (hnotpdf : ¬(file.content_type = "application/pdf"
      ∨ (lowerEndsWith file.filename ".pdf") = true))
    (hnotdocx : ¬((file.content_type =
        "application/vnd.openxmlformats-officedocument.wordprocessingml.document"
      ∨ (lowerEndsWith file.filename ".docx") = true) ∧ docxAvailable = true))
    (htext : file.content_type = "text/plain")
    (hh : hashBytes file.content ∉ st0.docHashes)
    (hp : rawPathFor (hashBytes file.content) file.filename ∉ st0.rawPaths) :
    ∃ n st1 st2,
      ingest_upload pdfReader docxReader docxAvailable decodeUtf8 hashBytes file st0 =
        Except.ok (IngestResult.ok (hashBytes file.content) n, st1) ∧
      ingest_upload pdfReader docxReader docxAvailable decodeUtf8 hashBytes file st1 =
        Except.ok (IngestResult.error, st2) ∧
      st2.docHashes = st0.docHashes ++ [hashBytes file.content] ∧
      st2.docHashes.count (hashBytes file.content) = 1 ∧
      st2.rawWriteLog = st0.rawWriteLog ++
        [rawPathFor (hashBytes file.content) file.filename] ∧
      st2.rawPaths = st1.rawPaths := by
  have hrun : ∀ st : IngestState,
      ingest_upload pdfReader docxReader docxAvailable decodeUtf8 hashBytes file st =
        Except.ok (finishUpload (hashBytes file.content) file.filename
          (decodeUtf8 file.content) st) := by
    intro st
    simp only [ingest_upload]
    rw [if_neg hnotpdf, if_neg hnotdocx, if_pos htext]
    rfl
  refine ⟨(chunk_text_ingest ((decodeUtf8 file.content).toList.take MAX_DOC_LENGTH)
      3000 250).length,
    { rawPaths := rawPathFor (hashBytes file.content) file.filename :: st0.rawPaths,
      rawWriteLog := st0.rawWriteLog ++
        [rawPathFor (hashBytes file.content) file.filename],
      docHashes := st0.docHashes ++ [hashBytes file.content],
      vectorAdds := st0.vectorAdds +
        (chunk_text_ingest ((decodeUtf8 file.content).toList.take MAX_DOC_LENGTH)
          3000 250).length },
    { rawPaths := rawPathFor (hashBytes file.content) file.filename :: st0.rawPaths,
      rawWriteLog := st0.rawWriteLog ++
        [rawPathFor (hashBytes file.content) file.filename],
      docHashes := st0.docHashes ++ [hashBytes file.content],
      vectorAdds := st0.vectorAdds +
        (chunk_text_ingest ((decodeUtf8 file.content).toList.take MAX_DOC_LENGTH)
          3000 250).length +
        (chunk_text_ingest ((decodeUtf8 file.content).toList.take MAX_DOC_LENGTH)
          3000 250).length },
    ?_, ?_, rfl, ?_, rfl, rfl⟩
  · rw [hrun st0, finishUpload_fresh (hashBytes file.content) file.filename
      (decodeUtf8 file.content) st0 hp hh]
  · rw [hrun _, finishUpload_dup (hashBytes file.content) file.filename
      (decodeUtf8 file.content) _ (by simp) (by simp)]
  · rw [List.count_append]
    simp [List.count_eq_zero_of_not_mem hh]

/-- C2 counterexample: a concrete double ingestion of the same bytes. The
first call succeeds; the second call skips the raw write (the path and the
write log are unchanged) but returns status `error` — it does not complete
successfully, refuting "reuses the already-stored copy rather than
failing". Exactly one Document row with the hash remains. -/
theorem ingest_second_upload_errors_cex :
    ingest_upload (fun _ => Except.ok []) (fun _ => Except.ok "") false
      (fun _ => "hello") (fun _ => "h1")
      { filename := "a.txt", content_type := "text/plain", content := [104, 105] }
      { rawPaths := [], rawWriteLog := [], docHashes := [], vectorAdds := 0 } =
      Except.ok (IngestResult.ok "h1" 1,
        { rawPaths := ["storage/raw/h1_a.txt"], rawWriteLog := ["storage/raw/h1_a.txt"],
          docHashes := ["h1"], vectorAdds := 1 }) ∧
    ingest_upload (fun _ => Except.ok []) (fun _ => Except.ok "") false
      (fun _ => "hello") (fun _ => "h1")
      { filename := "a.txt", content_type := "text/plain", content := [104, 105] }
      { rawPaths := ["storage/raw/h1_a.txt"], rawWriteLog := ["storage/raw/h1_a.txt"],
        docHashes := ["h1"], vectorAdds := 1 } =
      Except.ok (IngestResult.error,
        { rawPaths := ["storage/raw/h1_a.txt"], rawWriteLog := ["storage/raw/h1_a.txt"],
          docHashes := ["h1"], vectorAdds := 2 }) := by
  constructor
  · rfl
  · rfl

/-- Witness for `ingest_dedup_amended` at a concrete text upload. -/
theorem ingest_dedup_amended_witness :
    (¬(("text/plain" : String) = "application/pdf"
        ∨ (lowerEndsWith "a.txt" ".pdf") = true) ∧
     ¬((("text/plain" : String) =
          "application/vnd.openxmlformats-officedocument.wordprocessingml.document"
        ∨ (lowerEndsWith "a.txt" ".docx") = true) ∧ false = true) ∧
     ("h1" : String) ∉ ([] : List String) ∧
     rawPathFor "h1" "a.txt" ∉ ([] : List String)) ∧
    (∃ n st1 st2,
      ingest_upload (fun _ => Except.ok []) (fun _ => Except.ok "") false
        (fun _ => "hello") (fun _ => "h1")
        { filename := "a.txt", content_type := "text/plain", content := [104, 105] }
        { rawPaths := [], rawWriteLog := [], docHashes := [], vectorAdds := 0 } =
        Except.ok (IngestResult.ok "h1" n, st1) ∧
      ingest_upload (fun _ => Except.ok []) (fun _ => Except.ok "") false
        (fun _ => "hello") (fun _ => "h1")
        { filename := "a.txt", content_type := "text/plain", content := [104, 105] } st1 =
        Except.ok (IngestResult.error, st2) ∧
      st2.docHashes = [] ++ ["h1"] ∧
      st2.docHashes.count "h1" = 1 ∧
      st2.rawWriteLog = [] ++ [rawPathFor "h1" "a.txt"] ∧
      st2.rawPaths = st1.rawPaths) :=
  ⟨⟨by decide, by decide, by decide, by decide⟩,
   ingest_dedup_amended (fun _ => Except.ok []) (fun _ => Except.ok "") false
     (fun _ => "hello") (fun _ => "h1")
     { filename := "a.txt", content_type := "text/plain", content := [104, 105] }
     { rawPaths := [], rawWriteLog := [], docHashes := [], vectorAdds := 0 }
     (by decide) (by decide) rfl (by decide) (by decide)⟩

/-- C3: the PDF extraction boundary propagates library errors instead of
degrading to a string. Whenever the underlying reader fails — as pypdf
does on empty or malformed input — `_extract_text_from_pdf` fails with the
same error, and so does `ingest_upload` for a PDF upload: no `try`/`except`
exists anywhere on this path, contradicting the spec's "extraction never
raises past this boundary". -/
theorem pdf_extract_propagates_error
    (pdfReader : List Nat → Except ReadError (List String))
    (docxReader : List Nat → Except ReadError String) (docxAvailable : Bool)
    (decodeUtf8 : List Nat → String) (hashBytes : List Nat → String)
    (fname : String) (content : List Nat) (e : ReadError)
    (hfail : pdfReader content = Except.error e) :
    extract_text_from_pdf pdfReader content = Except.error e ∧
    ∀ st : IngestState,
      ingest_upload pdfReader docxReader docxAvailable decodeUtf8 hashBytes
        { filename := fname, content_type := "application/pdf", content := content } st =
        Except.error e := by
  constructor
  · simp [extract_text_from_pdf, hfail, Except.map]
  · intro st
    simp [ingest_upload, extract_text_from_pdf, hfail, Except.map, Functor.map]

/-- Witness for `pdf_extract_propagates_error`: pypdf's behaviour on a
zero-byte upload declared as `application/pdf` (pypdf raises
"Cannot read an empty file"). -/
theorem pdf_extract_propagates_error_witness :
    ((fun _ : List Nat =>
        (Except.error { msg := "Cannot read an empty file" } :
          Except ReadError (List String))) [] =
      Except.error { msg := "Cannot read an empty file" }) ∧
    (extract_text_from_pdf
        (fun _ => Except.error { msg := "Cannot read an empty file" }) [] =
      Except.error { msg := "Cannot read an empty file" } ∧
    ∀ st : IngestState,
      ingest_upload (fun _ => Except.error { msg := "Cannot read an empty file" })
        (fun _ => Except.ok "") false (fun _ => "") (fun _ => "h")
        { filename := "empty.pdf", content_type := "application/pdf", content := [] } st =
        Except.error { msg := "Cannot read an empty file" }) :=
  ⟨rfl,
   pdf_extract_propagates_error
     (fun _ => Except.error { msg := "Cannot read an empty file" })
     (fun _ => Except.ok "") false (fun _ => "") (fun _ => "h")
     "empty.pdf" [] { msg := "Cannot read an empty file" } rfl⟩

end Pearson
